import Mathlib

/-!
Verification of the chat-list pagination and search subsystem of the
`view-chats` repository, against `src/server/src/routes/chats.ts`.

The embedding mirrors the `/list` route: raw query parameters are parsed
(`parseListLimit`, `tryParseIsoDate`, search trimming and validation), the
message table is filtered by an ILIKE prefix pattern built with
`escapeForILike`, grouped into per-session statistics (`sessionStats`,
the `session_stats` CTE), filtered by the keyset-cursor clause
(`keepAll`), ordered by `ORDER BY last_message_at DESC NULLS LAST,
session_id DESC` (`statLe`), truncated by `LIMIT`, and wrapped in a
response carrying `nextCursor` (`listCore`, `listQuery`).

Timestamps are modelled as `Nat` (the code only ever compares them and
round-trips them through ISO strings); the JavaScript `new Date(...)`
parser is an environment function passed in as `jsDateParse`; SQL `NULL`
timestamps are `Option.none`, and the three-valued logic of the cursor
comparison on `NULL` is explicit in `keepAll`.
-/

/-- A row of the `chat_messages` table, restricted to the columns the
`/list` and `/` routes read: `session_id`, `created_at`
(`TIMESTAMPTZ`, modelled as `Nat`), and the `message ->> 'content'`
projection used by the summary query. -/
structure Message where
  id : Nat
  sessionId : String
  createdAt : Nat
  content : String
deriving DecidableEq, Repr

/-- A row of the `session_stats` CTE: `session_id`, `COUNT(*)`,
`MAX(created_at)` (NULL modelled as `none`). -/
structure SessionStat where
  sessionId : String
  messageCount : Nat
  lastMessageAt : Option Nat
deriving DecidableEq, Repr

/-- The `nextCursor` object of the `/list` response. -/
structure CursorVal where
  lastMessageAt : Nat
  sessionId : String
deriving DecidableEq, Repr

/-- The `/list` response payload: `{ items, nextCursor? }`. -/
structure ChatListPage where
  items : List SessionStat
  nextCursor : Option CursorVal
deriving DecidableEq, Repr

/-- The raw query parameters of a `/list` request.  `none` stands for an
absent parameter or one whose JavaScript `typeof` is not `'string'`. -/
structure ListRequest where
  limit : Option String
  cursorLastMessageAt : Option String
  cursorSessionId : Option String
  search : Option String
deriving DecidableEq, Repr

def DEFAULT_SUMMARY_LIMIT : Nat := 25
def MAX_SUMMARY_LIMIT : Nat := 200
def LIST_DEFAULT_LIMIT : Nat := 50
def LIST_MAX_LIMIT : Nat := 200
def MIN_SEARCH_LENGTH : Nat := 3

/-- JavaScript `Number.parseInt(s, 10)`: skip leading whitespace, read an
optional sign and then a maximal run of decimal digits; `NaN` (here
`none`) when no digit is found. -/
def parseIntJs (s : String) : Option Int :=
  let cs := s.data.dropWhile (fun c => c.isWhitespace)
  let signNeg : Bool := match cs with
    | c :: _ => c = '-'
    | [] => false
  let rest := match cs with
    | c :: cs' => if c = '-' ∨ c = '+' then cs' else c :: cs'
    | [] => []
  let digits := rest.takeWhile (fun c => c.isDigit)
  if digits.isEmpty then none
  else
    let n : Nat := digits.foldl (fun acc c => acc * 10 + (c.toNat - 48)) 0
    some (if signNeg then -(n : Int) else (n : Int))

/-- `parseListLimit` of `chats.ts`: a non-string raw value falls back to
`LIST_DEFAULT_LIMIT`; so does an unparseable string; otherwise the parsed
value is clamped by `Math.min(Math.max(parsed, 1), LIST_MAX_LIMIT)`. -/
def parseListLimit (rawLimit : Option String) : Nat :=
  match rawLimit with
  | none => LIST_DEFAULT_LIMIT
  | some s =>
    match parseIntJs s with
    | none => LIST_DEFAULT_LIMIT
    | some parsed => (min (max parsed 1) (LIST_MAX_LIMIT : Int)).toNat

/-- `tryParseIsoDate` of `chats.ts`: `undefined` or `''` (both falsy) give
`undefined`; otherwise `new Date(value)` is consulted and an invalid date
(`NaN` epoch) gives `undefined`.  The JavaScript date parser is the
environment function `jsDateParse`. -/
def tryParseIsoDate (jsDateParse : String → Option Nat)
    (value : Option String) : Option Nat :=
  match value with
  | none => none
  | some v => if v = "" then none else jsDateParse v

/-- The characters `_`, `%` and `\` that are special inside a SQL LIKE
pattern (the capture group of the regex in `escapeForILike`). -/
def isLikeSpecial (c : Char) : Bool := c = '_' || c = '%' || c = '\\'

/-- Character-list form of `escapeForILike`:
`input.replace(/([_%\\])/g, '\\$1')`. -/
def escapeChars : List Char → List Char
  | [] => []
  | c :: cs => if isLikeSpecial c then '\\' :: c :: escapeChars cs else c :: escapeChars cs

/-- `escapeForILike` of `chats.ts`. -/
def escapeForILike (s : String) : String := ⟨escapeChars s.data⟩

/-- Postgres `ILIKE` pattern matching on character lists: `%` matches any
run, `_` any single character, `\` escapes the next pattern character,
and plain characters compare case-insensitively.  The recursion is
bounded by an explicit fuel; every step consumes at least one character
of pattern or text, so `pattern.length + text.length + 1` fuel always
suffices (see `likeMatchCI`). -/
def likeMatchFuel : Nat → List Char → List Char → Bool
  | 0, _, _ => false
  | _ + 1, [], t => t.isEmpty
  | fuel + 1, p :: ps, [] =>
    if p = '%' then likeMatchFuel fuel ps [] else false
  | fuel + 1, p :: ps, d :: ts =>
    if p = '%' then
      likeMatchFuel fuel ps (d :: ts) || likeMatchFuel fuel (p :: ps) ts
    else if p = '\\' then
      match ps with
      | [] => false
      | q :: ps' => (d.toLower == q.toLower) && likeMatchFuel fuel ps' ts
    else if p = '_' then
      likeMatchFuel fuel ps ts
    else
      (d.toLower == p.toLower) && likeMatchFuel fuel ps ts

/-- `ILIKE` matching with always-sufficient fuel. -/
def likeMatchCI (p t : List Char) : Bool :=
  likeMatchFuel (p.length + t.length + 1) p t

/-- `pattern ILIKE text` at the `String` level. -/
def ilikeMatches (pat text : String) : Bool := likeMatchCI pat.data text.data

/-- Case-insensitive "starts with": the specification's reading of the
prefix search. -/
def startsWithLower (s t : String) : Bool :=
  (s.data.map Char.toLower).isPrefixOf (t.data.map Char.toLower)

/-- Lexicographic (codepoint-wise) `≤` on character lists: the model of
the SQL `text` collation used for `session_id` comparisons. -/
def charListLe : List Char → List Char → Bool
  | [], _ => true
  | _ :: _, [] => false
  | a :: as, b :: bs => if a < b then true else if b < a then false else charListLe as bs

/-- Lexicographic (codepoint-wise) `<` on character lists. -/
def charListLt : List Char → List Char → Bool
  | [], [] => false
  | [], _ :: _ => true
  | _ :: _, [] => false
  | a :: as, b :: bs => if a < b then true else if b < a then false else charListLt as bs

/-- SQL `session_id <= ...` on strings. -/
def sidLe (a b : String) : Bool := charListLe a.data b.data

/-- SQL `session_id < ...` on strings. -/
def sidLt (a b : String) : Bool := charListLt a.data b.data

/-- Boolean form of the `ORDER BY last_message_at DESC NULLS LAST,
session_id DESC` comparator: `a` may come before (or equal) `b`. -/
def statLeB (a b : SessionStat) : Bool :=
  match a.lastMessageAt, b.lastMessageAt with
  | some x, some y => decide (y < x) || (decide (x = y) && sidLe b.sessionId a.sessionId)
  | some _, none => true
  | none, some _ => false
  | none, none => sidLe b.sessionId a.sessionId

/-- Propositional form of the canonical comparator, used as the sorting
relation. -/
def statLe (a b : SessionStat) : Prop := statLeB a b = true

instance : DecidableRel statLe := fun _ _ => inferInstanceAs (Decidable (_ = true))

/-- The canonical total order as the specification words it: primarily
descending `lastMessageAt`, null `lastMessageAt` sorting after every
non-null value, ties broken by descending `sessionId`. -/
def canonLe (a b : SessionStat) : Prop :=
  match a.lastMessageAt, b.lastMessageAt with
  | some x, some y => y < x ∨ (x = y ∧ sidLe b.sessionId a.sessionId = true)
  | some _, none => True
  | none, some _ => False
  | none, none => sidLe b.sessionId a.sessionId = true

/-- The keyset-cursor `WHERE` clause of the `/list` query, under SQL
three-valued logic: a row with `last_message_at IS NULL` never satisfies
either comparison.  `cursorDate = none` is the absent `cursorClause`
(`WHERE 1=1` only). -/
def keepAll (cursorDate : Option Nat) (csid : Option String) (s : SessionStat) : Bool :=
  match cursorDate with
  | none => true
  | some d =>
    match s.lastMessageAt with
    | none => false
    | some t =>
      match csid with
      | some sid => decide (t < d) || (decide (t = d) && sidLt s.sessionId sid)
      | none => decide (t < d)

/-- The `session_stats` row for one `session_id`: `COUNT(*)` and
`MAX(created_at)` over the messages of that session. -/
def statFor (msgs : List Message) (sid : String) : SessionStat :=
  let group := msgs.filter (fun m => m.sessionId = sid)
  { sessionId := sid
    messageCount := group.length
    lastMessageAt := (group.map (fun m => m.createdAt)).max? }

/-- The `session_stats` CTE: the `WHERE` clause (message-level session-id
predicate `wp`) followed by `GROUP BY session_id`. -/
def sessionStats (msgs : List Message) (wp : String → Bool) : List SessionStat :=
  let filtered := msgs.filter (fun m => wp m.sessionId)
  ((filtered.map (fun m => m.sessionId)).dedup).map (statFor filtered)

/-- The outer `/list` query, after parameter parsing: cursor `WHERE`
clause, `ORDER BY`, `LIMIT`, and the `nextCursor` computation of lines
153-163 of `chats.ts` (`items.length === limit`, last item, and the
null-timestamp guard). -/
def listCore (stats : List SessionStat) (limit : Nat)
    (cursorDate : Option Nat) (csid : Option String) : ChatListPage :=
  let sorted := List.insertionSort statLe (stats.filter (keepAll cursorDate csid))
  let items := sorted.take limit
  let nextCursor : Option CursorVal :=
    if items.length = limit then
      match items.getLast? with
      | some lastItem =>
        match lastItem.lastMessageAt with
        | some d => some ⟨d, lastItem.sessionId⟩
        | none => none
      | none => none
    else none
  ⟨items, nextCursor⟩

/-- JavaScript `String.prototype.trim`: strip whitespace from both
ends. -/
def jsTrim (s : String) : String :=
  ⟨(((s.data.dropWhile (fun c => c.isWhitespace)).reverse.dropWhile
      (fun c => c.isWhitespace)).reverse)⟩

/-- The trimmed, empty-collapsed `search` value of the route:
`req.query.search` must be a string, is trimmed, and an empty trim result
counts as absent. -/
def searchOf (req : ListRequest) : Option String :=
  match req.search.map jsTrim with
  | some s => if 0 < s.length then some s else none
  | none => none

/-- The `session_id ILIKE $n` predicate built from the escaped search
text, or the match-all predicate when no search was supplied. -/
def wherePredOf (req : ListRequest) : String → Bool :=
  match searchOf req with
  | some s => fun sid => ilikeMatches (escapeForILike s ++ "%") sid
  | none => fun _ => true

/-- The `search && search.length < MIN_SEARCH_LENGTH` validation guard. -/
def searchTooShort (req : ListRequest) : Bool :=
  match searchOf req with
  | some s => s.length < MIN_SEARCH_LENGTH
  | none => false

/-- The cursor session id after the JavaScript truthiness test
`if (cursorSessionId)`: an empty string counts as absent. -/
def csidOf (req : ListRequest) : Option String :=
  match req.cursorSessionId with
  | some s => if s = "" then none else some s
  | none => none

/-- The `/list` route handler: validation, parameter parsing, and the
query.  A failed search validation is the `400` response. -/
def listQuery (jsDateParse : String → Option Nat) (msgs : List Message)
    (req : ListRequest) : Except String ChatListPage :=
  if searchTooShort req then
    .error "Search query must be at least 3 characters long."
  else
    .ok (listCore (sessionStats msgs (wherePredOf req)) (parseListLimit req.limit)
      (tryParseIsoDate jsDateParse req.cursorLastMessageAt) (csidOf req))

/-- One client-driven pagination loop: call the query, emit the page, and
feed `nextCursor` back in (through the api client, which drops an empty
cursor session id) until it is absent.  `fuel` bounds the number of
round trips. -/
def paginateAux (fuel : Nat) (stats : List SessionStat) (limit : Nat)
    (cursorDate : Option Nat) (csid : Option String) : List SessionStat :=
  match fuel with
  | 0 => []
  | fuel + 1 =>
    let page := listCore stats limit cursorDate csid
    page.items ++
      match page.nextCursor with
      | none => []
      | some c =>
        paginateAux fuel stats limit (some c.lastMessageAt)
          (if c.sessionId = "" then none else some c.sessionId)

/-- All pages of the filtered listing, starting from a null cursor. -/
def paginateAll (msgs : List Message) (wp : String → Bool) (limit : Nat) : List SessionStat :=
  paginateAux ((sessionStats msgs wp).length + 1) (sessionStats msgs wp) limit none none

/-- The number of underscore-delimited segments of a session id: one more
than the number of `'_'` characters (splitting a string on a delimiter
always yields `occurrences + 1` segments). -/
def underscoreSegments (sid : String) : Nat :=
  (sid.data.filter (fun c => c = '_')).length + 1

/-- Modelled from the spec: the server-side handling of the `onlyWhatsapp`
flag is missing from the sources (the web client `loadChatList` sends the
flag and `ChatListItem` declares `isWhatsapp`, but no route under `src/`
consumes it).  Per the spec, a session id composed of exactly two
underscore-delimited segments is a WhatsApp session. -/
def isWhatsappSession (sid : String) : Bool :=
  underscoreSegments sid = 2

/-- Modelled from the spec: `isSales` is looked up from a side settings
collaborator keyed by `sessionId`; an absent entry defaults to false. -/
def isSalesSession (settings : String → Option Bool) (sid : String) : Bool :=
  (settings sid).getD false

/-- Modelled from the spec: `onlySales` / `onlyWhatsapp`, when true, AND
additional constraints (`isSales == true`, `isWhatsapp == true`) into the
session-level filter predicate; a false flag imposes no constraint. -/
def categoryPred (settings : String → Option Bool) (onlySales onlyWhatsapp : Bool)
    (sid : String) : Bool :=
  (!onlySales || isSalesSession settings sid) && (!onlyWhatsapp || isWhatsappSession sid)

/-- Modelled from the spec: the chat list operation with the category
flags applied as an additional session-level conjunct of the filter. -/
def listWithCategories (settings : String → Option Bool) (msgs : List Message)
    (wp : String → Bool) (onlySales onlyWhatsapp : Bool) (limit : Nat)
    (cursorDate : Option Nat) (csid : Option String) : ChatListPage :=
  listCore
    ((sessionStats msgs wp).filter (fun st => categoryPred settings onlySales onlyWhatsapp st.sessionId))
    limit cursorDate csid

/-- The sequence Postgres feeds into `ARRAY_AGG(... ORDER BY created_at
DESC)` (and equally into `ROW_NUMBER() OVER (... ORDER BY created_at
DESC)`) for one session's group: any permutation of the group that is
sorted by `created_at` descending.  Ties in `created_at` have no defined
relative order, so several sequences can be valid for the same group. -/
def ValidAggOrder (group seq : List Message) : Prop :=
  seq.Perm group ∧ seq.Pairwise (fun a b => b.createdAt ≤ a.createdAt)

instance (group seq : List Message) : Decidable (ValidAggOrder group seq) :=
  inferInstanceAs (Decidable (_ ∧ _))

/-- The `last_message_content` column: the first element of the
aggregated array, i.e. the head of the chosen sequence. -/
def aggPreviewContent (seq : List Message) : Option String :=
  seq.head?.map (fun m => m.content)

/-- Example store used by the concrete evaluations: the specification's
scenario (session `A` with 3 messages, last at 3; `B` with 1 message at
5; `C` with 2 messages, last at 5). -/
def exampleMsgs : List Message :=
  [⟨0, "A", 1, "a1"⟩, ⟨1, "A", 2, "a2"⟩, ⟨2, "A", 3, "a3"⟩,
   ⟨3, "B", 5, "b"⟩, ⟨4, "C", 4, "c1"⟩, ⟨5, "C", 5, "c2"⟩]

/-! ### Order lemmas for the canonical comparator -/

theorem charListLe_refl : ∀ l : List Char, charListLe l l = true
  | [] => rfl
  | a :: as => by simp [charListLe, lt_irrefl, charListLe_refl as]

theorem charListLe_total : ∀ a b : List Char, charListLe a b = true ∨ charListLe b a = true
  | [], _ => Or.inl rfl
  | _ :: _, [] => Or.inr rfl
  | x :: as, y :: bs => by
    rcases lt_trichotomy x y with h | h | h
    · exact Or.inl (by simp [charListLe, h])
    · subst h
      rcases charListLe_total as bs with ih | ih
      · exact Or.inl (by simp [charListLe, lt_irrefl, ih])
      · exact Or.inr (by simp [charListLe, lt_irrefl, ih])
    · exact Or.inr (by simp [charListLe, h])

theorem charListLe_trans : ∀ a b c : List Char,
    charListLe a b = true → charListLe b c = true → charListLe a c = true
  | [], _, _, _, _ => rfl
  | _ :: _, [], _, h, _ => by simp [charListLe] at h
  | _ :: _, _ :: _, [], _, h => by simp [charListLe] at h
  | x :: as, y :: bs, z :: cs, h1, h2 => by
    rcases lt_trichotomy x y with hxy | hxy | hxy
    · rcases lt_trichotomy y z with hyz | hyz | hyz
      · simp [charListLe, hxy.trans hyz]
      · subst hyz; simp [charListLe, hxy]
      · simp [charListLe, hyz, asymm hyz] at h2
    · subst hxy
      rcases lt_trichotomy x z with hyz | hyz | hyz
      · simp [charListLe, hyz]
      · subst hyz
        simp only [charListLe, lt_irrefl, if_false] at h1 h2 ⊢
        exact charListLe_trans as bs cs h1 h2
      · simp [charListLe, hyz, asymm hyz] at h2
    · simp [charListLe, hxy, asymm hxy] at h1

theorem charListLe_antisymm : ∀ a b : List Char,
    charListLe a b = true → charListLe b a = true → a = b
  | [], [], _, _ => rfl
  | [], _ :: _, _, h => by simp [charListLe] at h
  | _ :: _, [], h, _ => by simp [charListLe] at h
  | x :: as, y :: bs, h1, h2 => by
    rcases lt_trichotomy x y with hxy | hxy | hxy
    · simp [charListLe, hxy, asymm hxy] at h2
    · subst hxy
      simp only [charListLe, lt_irrefl, if_false] at h1 h2
      rw [charListLe_antisymm as bs h1 h2]
    · simp [charListLe, hxy, asymm hxy] at h1

theorem charListLt_eq_not_le : ∀ a b : List Char, charListLt a b = !charListLe b a
  | [], [] => rfl
  | [], _ :: _ => rfl
  | _ :: _, [] => rfl
  | x :: as, y :: bs => by
    rcases lt_trichotomy x y with hxy | hxy | hxy
    · simp [charListLt, charListLe, hxy, asymm hxy]
    · subst hxy
      simp only [charListLt, charListLe, lt_irrefl, if_false]
      exact charListLt_eq_not_le as bs
    · simp [charListLt, charListLe, hxy, asymm hxy]

theorem sidLe_refl (a : String) : sidLe a a = true := charListLe_refl a.data

theorem sidLe_total (a b : String) : sidLe a b = true ∨ sidLe b a = true :=
  charListLe_total a.data b.data

theorem sidLe_trans {a b c : String} (h1 : sidLe a b = true) (h2 : sidLe b c = true) :
    sidLe a c = true := charListLe_trans a.data b.data c.data h1 h2

theorem sidLe_antisymm {a b : String} (h1 : sidLe a b = true) (h2 : sidLe b a = true) :
    a = b := String.ext (charListLe_antisymm a.data b.data h1 h2)

theorem sidLt_eq_not_le (a b : String) : sidLt a b = !sidLe b a :=
  charListLt_eq_not_le a.data b.data

theorem sidLt_empty (a : String) : sidLt a "" = false := by
  have : sidLe "" a = true := rfl
  rw [sidLt_eq_not_le, this]
  rfl

theorem statLeB_refl (a : SessionStat) : statLeB a a = true := by
  unfold statLeB
  cases a.lastMessageAt <;> simp [sidLe_refl]

theorem statLeB_total (a b : SessionStat) : statLeB a b = true ∨ statLeB b a = true := by
  unfold statLeB
  cases ha : a.lastMessageAt with
  | none =>
    cases hb : b.lastMessageAt with
    | none => exact sidLe_total b.sessionId a.sessionId
    | some y => exact Or.inr (by simp)
  | some x =>
    cases hb : b.lastMessageAt with
    | none => exact Or.inl (by simp)
    | some y =>
      rcases lt_trichotomy x y with h | h | h
      · exact Or.inr (by simp [h])
      · subst h
        rcases sidLe_total b.sessionId a.sessionId with hs | hs
        · exact Or.inl (by simp [hs])
        · exact Or.inr (by simp [hs])
      · exact Or.inl (by simp [h])

theorem statLeB_trans {a b c : SessionStat} (h1 : statLeB a b = true)
    (h2 : statLeB b c = true) : statLeB a c = true := by
  unfold statLeB at h1 h2 ⊢
  cases ha : a.lastMessageAt <;> cases hb : b.lastMessageAt <;> cases hc : c.lastMessageAt <;>
    simp [ha, hb, hc] at h1 h2 ⊢
  · exact sidLe_trans h2 h1
  · rcases h1 with h1 | ⟨h1, h1'⟩ <;> rcases h2 with h2 | ⟨h2, h2'⟩
    · exact Or.inl (h2.trans h1)
    · exact Or.inl (h2 ▸ h1)
    · exact Or.inl (h1 ▸ h2)
    · exact Or.inr ⟨h1.trans h2, sidLe_trans h2' h1'⟩

theorem statLeB_antisymm_sid {a b : SessionStat} (h1 : statLeB a b = true)
    (h2 : statLeB b a = true) : a.sessionId = b.sessionId := by
  unfold statLeB at h1 h2
  cases ha : a.lastMessageAt <;> cases hb : b.lastMessageAt <;> simp [ha, hb] at h1 h2
  · exact sidLe_antisymm h2 h1
  · rcases h1 with h1 | ⟨h1, h1'⟩ <;> rcases h2 with h2 | ⟨h2, h2'⟩
    · exact absurd (h1.trans h2) (lt_irrefl _)
    · exact absurd (h2 ▸ h1) (lt_irrefl _)
    · exact absurd (h1 ▸ h2) (lt_irrefl _)
    · exact sidLe_antisymm h2' h1'

instance : IsTotal SessionStat statLe :=
  ⟨fun a b => statLeB_total a b⟩

instance : IsTrans SessionStat statLe :=
  ⟨fun _ _ _ h1 h2 => statLeB_trans h1 h2⟩

theorem statLe_iff_canonLe (a b : SessionStat) : statLe a b ↔ canonLe a b := by
  unfold statLe statLeB canonLe
  cases a.lastMessageAt <;> cases b.lastMessageAt <;> simp

/-! ### Basic facts about the route wrapper -/

theorem listCore_no_cursor (stats : List SessionStat) (limit : Nat) (csid : Option String) :
    listCore stats limit none csid = listCore stats limit none none := rfl

theorem listQuery_ok {jsDateParse : String → Option Nat} {msgs : List Message}
    {req : ListRequest} {resp : ChatListPage}
    (hok : listQuery jsDateParse msgs req = .ok resp) :
    resp = listCore (sessionStats msgs (wherePredOf req)) (parseListLimit req.limit)
      (tryParseIsoDate jsDateParse req.cursorLastMessageAt) (csidOf req) := by
  unfold listQuery at hok
  split at hok
  · exact absurd hok (by simp)
  · simpa using hok.symm

/-! ### C10: limit parsing -/

/-- C10: for every raw `limit` query parameter, the effective page limit
lies in `[1, 200]`; an absent or non-string parameter, or one that does
not parse as an integer, yields exactly the default 50; a parseable value
is clamped into `[1, 200]`. -/
theorem c10_parse_list_limit (raw : Option String) :
    (1 ≤ parseListLimit raw ∧ parseListLimit raw ≤ 200)
    ∧ (raw = none → parseListLimit raw = 50)
    ∧ (∀ s, raw = some s → parseIntJs s = none → parseListLimit raw = 50)
    ∧ (∀ s n, raw = some s → parseIntJs s = some n →
        (parseListLimit raw : Int) = min (max n 1) 200) := by
  refine ⟨?_, ?_, ?_, ?_⟩
  · cases raw with
    | none => simp [parseListLimit, LIST_DEFAULT_LIMIT]
    | some s =>
      cases hp : parseIntJs s with
      | none => simp [parseListLimit, LIST_DEFAULT_LIMIT, hp]
      | some n => simp only [parseListLimit, LIST_MAX_LIMIT, hp]; omega
  · rintro rfl; rfl
  · rintro s rfl hp; simp [parseListLimit, LIST_DEFAULT_LIMIT, hp]
  · rintro s n rfl hp; simp only [parseListLimit, LIST_MAX_LIMIT, hp]; omega

theorem c10_parse_list_limit_witness :
    (parseListLimit (some "300") : Int) = min (max 300 1) 200 :=
  (c10_parse_list_limit (some "300")).2.2.2 "300" 300 rfl (by decide)

/-! ### C9: search validation -/

/-- C9: a supplied search whose trimmed length is 1 or 2 characters is
rejected with the validation error (no query runs, no items are
returned); a trimmed search of length 0 behaves exactly like an absent
search (match-all); absent or length-3-or-more searches are accepted. -/
theorem c9_search_validation (jsDateParse : String → Option Nat) (msgs : List Message)
    (req : ListRequest) :
    (∀ s, req.search = some s → 1 ≤ (jsTrim s).length → (jsTrim s).length < 3 →
      listQuery jsDateParse msgs req =
        .error "Search query must be at least 3 characters long.")
    ∧ (∀ s, req.search = some s → (jsTrim s).length = 0 →
      listQuery jsDateParse msgs req =
        listQuery jsDateParse msgs { req with search := none })
    ∧ ((∀ s, req.search = some s → (jsTrim s).length = 0 ∨ 3 ≤ (jsTrim s).length) →
      ∃ resp, listQuery jsDateParse msgs req = .ok resp) := by
  refine ⟨?_, ?_, ?_⟩
  · rintro s hs h1 h3
    have hshort : searchTooShort req = true := by
      unfold searchTooShort searchOf
      rw [hs]
      simp only [Option.map_some']
      rw [if_pos (by omega : 0 < (jsTrim s).length)]
      simpa [MIN_SEARCH_LENGTH] using h3
    simp [listQuery, hshort]
  · rintro s hs h0
    have hnone : searchOf req = none := by
      unfold searchOf
      rw [hs]
      simp [h0]
    have e1 : searchTooShort req = false := by
      unfold searchTooShort; rw [hnone]
    have e2 : wherePredOf req = fun _ => true := by
      unfold wherePredOf; rw [hnone]
    unfold listQuery
    rw [e1, e2]
    rfl
  · intro hlong
    have hshort : searchTooShort req = false := by
      cases hs : req.search with
      | none =>
        unfold searchTooShort searchOf
        rw [hs]
        rfl
      | some s =>
        rcases hlong s hs with h0 | h3
        · unfold searchTooShort searchOf
          rw [hs]
          simp [h0]
        · unfold searchTooShort searchOf
          rw [hs]
          simp only [Option.map_some']
          rw [if_pos (by omega : 0 < (jsTrim s).length)]
          simp only [MIN_SEARCH_LENGTH, decide_eq_false_iff_not]
          omega
    refine ⟨listCore (sessionStats msgs (wherePredOf req)) (parseListLimit req.limit)
      (tryParseIsoDate jsDateParse req.cursorLastMessageAt) (csidOf req), ?_⟩
    unfold listQuery
    rw [hshort]
    rfl

theorem c9_search_validation_witness :
    listQuery (fun _ => none) exampleMsgs ⟨none, none, none, some " ab "⟩ =
      .error "Search query must be at least 3 characters long." :=
  (c9_search_validation (fun _ => none) exampleMsgs ⟨none, none, none, some " ab "⟩).1
    " ab " rfl (by decide) (by decide)

/-! ### C8: unparseable cursor falls back to the first page -/

/-- C8: when the cursor timestamp is absent, empty, or not parseable as a
date, the request behaves exactly as if no cursor had been supplied: same
result, no error attributable to the cursor. -/
theorem c8_unparseable_cursor (jsDateParse : String → Option Nat) (msgs : List Message)
    (req : ListRequest)
    (h : tryParseIsoDate jsDateParse req.cursorLastMessageAt = none) :
    listQuery jsDateParse msgs req =
      listQuery jsDateParse msgs
        { req with cursorLastMessageAt := none, cursorSessionId := none } := by
  unfold listQuery
  have hs : searchTooShort { req with cursorLastMessageAt := none, cursorSessionId := none }
      = searchTooShort req := rfl
  rw [hs]
  split
  · rfl
  · rw [show tryParseIsoDate jsDateParse
      ({ req with cursorLastMessageAt := none, cursorSessionId := none } :
        ListRequest).cursorLastMessageAt = none from rfl, h]
    rw [show wherePredOf { req with cursorLastMessageAt := none, cursorSessionId := none }
      = wherePredOf req from rfl]
    rw [listCore_no_cursor]
    rfl

theorem c8_unparseable_cursor_witness :
    listQuery (fun _ => none) exampleMsgs ⟨none, some "not-a-date", some "B", none⟩ =
      listQuery (fun _ => none) exampleMsgs ⟨none, none, none, none⟩ :=
  c8_unparseable_cursor (fun _ => none) exampleMsgs
    ⟨none, some "not-a-date", some "B", none⟩ rfl

/-! ### C4: the nextCursor emission rule -/

/-- C4: `nextCursor` is present iff the page is exactly `limit` items
long and the last item's `lastMessageAt` is non-null; when present it is
exactly the `{lastMessageAt, sessionId}` pair of the last item; a full
page ending in a null timestamp emits no cursor. -/
theorem c4_next_cursor (stats : List SessionStat) (limit : Nat)
    (cursorDate : Option Nat) (csid : Option String) :
    ((listCore stats limit cursorDate csid).nextCursor.isSome ↔
      (listCore stats limit cursorDate csid).items.length = limit ∧
        ∃ li, (listCore stats limit cursorDate csid).items.getLast? = some li ∧
          li.lastMessageAt.isSome)
    ∧ (∀ c, (listCore stats limit cursorDate csid).nextCursor = some c →
        ∃ li, (listCore stats limit cursorDate csid).items.getLast? = some li ∧
          li.lastMessageAt = some c.lastMessageAt ∧ li.sessionId = c.sessionId) := by
  unfold listCore
  simp only
  set l := List.take limit (List.insertionSort statLe
    (List.filter (keepAll cursorDate csid) stats)) with hl
  constructor
  · constructor
    · intro hsome
      by_cases hlen : l.length = limit
      · rw [if_pos hlen] at hsome
        cases hg : l.getLast? with
        | none => rw [hg] at hsome; simp at hsome
        | some li =>
          rw [hg] at hsome
          cases hli : li.lastMessageAt with
          | none => simp [hli] at hsome
          | some d => exact ⟨hlen, li, rfl, by simp [hli]⟩
      · rw [if_neg hlen] at hsome
        simp at hsome
    · rintro ⟨hlen, li, hg, hsome⟩
      rw [if_pos hlen, hg]
      obtain ⟨d, hd⟩ := Option.isSome_iff_exists.mp hsome
      simp [hd]
  · intro c hc
    obtain ⟨cd, cs⟩ := c
    by_cases hlen : l.length = limit
    · rw [if_pos hlen] at hc
      cases hg : l.getLast? with
      | none => rw [hg] at hc; simp at hc
      | some li =>
        rw [hg] at hc
        cases hli : li.lastMessageAt with
        | none => simp [hli] at hc
        | some d =>
          simp [hli] at hc
          exact ⟨li, rfl, by rw [hli, hc.1], hc.2⟩
    · rw [if_neg hlen] at hc
      simp at hc

theorem c4_next_cursor_witness :
    ∃ li, (listCore (sessionStats exampleMsgs (fun _ => true)) 2 none none).items.getLast?
        = some li ∧ li.lastMessageAt = some 5 ∧ li.sessionId = "B" :=
  (c4_next_cursor (sessionStats exampleMsgs (fun _ => true)) 2 none none).2
    ⟨5, "B"⟩ (by decide)

/-! ### C5: canonical ordering of every returned page -/

/-- C5: the items of every successful `/list` response are sorted in the
canonical total order (descending `lastMessageAt`, nulls last, ties by
descending `sessionId`), and the page never exceeds the effective
limit. -/
theorem c5_canonical_order (jsDateParse : String → Option Nat) (msgs : List Message)
    (req : ListRequest) (resp : ChatListPage)
    (hok : listQuery jsDateParse msgs req = .ok resp) :
    resp.items.Pairwise canonLe ∧ resp.items.length ≤ parseListLimit req.limit := by
  obtain rfl := listQuery_ok hok
  constructor
  · have hsorted : (List.insertionSort statLe
        ((sessionStats msgs (wherePredOf req)).filter
          (keepAll (tryParseIsoDate jsDateParse req.cursorLastMessageAt) (csidOf req)))).Pairwise
        statLe :=
      List.sorted_insertionSort statLe _
    have htake := hsorted.sublist (List.take_sublist (parseListLimit req.limit) _)
    exact htake.imp (fun h => (statLe_iff_canonLe _ _).mp h)
  · simp [listCore]

theorem c5_canonical_order_witness :
    (listCore (sessionStats exampleMsgs (fun _ => true)) 50 none none).items.Pairwise canonLe
    ∧ (listCore (sessionStats exampleMsgs (fun _ => true)) 50 none none).items.length ≤ 50 :=
  c5_canonical_order (fun _ => none) exampleMsgs ⟨none, none, none, none⟩ _ rfl


/-! ### C6: escaped case-insensitive prefix matching -/

theorem charBeq_comm (a b : Char) : (a == b) = (b == a) := by
  by_cases h : a = b
  · subst h; rfl
  · have h' : ¬(b = a) := fun hh => h hh.symm
    simp [h, h']

theorem likeMatchFuel_nil_cons (f : Nat) (d : Char) (ts : List Char) :
    likeMatchFuel f [] (d :: ts) = false := by
  cases f <;> simp [likeMatchFuel]

theorem likeMatchFuel_pct : ∀ (t : List Char) (fuel : Nat), t.length + 1 < fuel →
    likeMatchFuel fuel ['%'] t = true := by
  intro t
  induction t with
  | nil =>
    intro fuel h
    cases fuel with
    | zero => omega
    | succ f =>
      cases f with
      | zero => simp at h
      | succ f' => simp [likeMatchFuel]
  | cons d ts ih =>
    intro fuel h
    cases fuel with
    | zero => omega
    | succ f =>
      have h1 : likeMatchFuel (f + 1) ['%'] (d :: ts)
          = (likeMatchFuel f [] (d :: ts) || likeMatchFuel f ['%'] ts) := by
        simp [likeMatchFuel]
      rw [h1, likeMatchFuel_nil_cons,
        ih f (by simp only [List.length_cons] at h; omega)]
      rfl

/-- Escaping the search text makes the ILIKE pattern `escaped ++ "%"`
behave as a literal case-insensitive prefix test. -/
theorem likeMatchFuel_escape : ∀ (p t : List Char) (fuel : Nat),
    (escapeChars p).length + t.length + 1 < fuel →
    likeMatchFuel fuel (escapeChars p ++ ['%']) t =
      (p.map Char.toLower).isPrefixOf (t.map Char.toLower) := by
  intro p
  induction p with
  | nil =>
    intro t fuel h
    have he : escapeChars [] = ([] : List Char) := rfl
    rw [he, List.nil_append,
      likeMatchFuel_pct t fuel (by rw [he] at h; simpa using h)]
    simp [List.isPrefixOf]
  | cons c cs ih =>
    intro t fuel h
    by_cases hsp : isLikeSpecial c = true
    · have hesc : escapeChars (c :: cs) = '\\' :: c :: escapeChars cs := by
        simp [escapeChars, hsp]
      rw [hesc] at h ⊢
      rw [List.cons_append, List.cons_append]
      cases fuel with
      | zero => omega
      | succ f =>
        cases t with
        | nil =>
          have hz : likeMatchFuel (f + 1) ('\\' :: (c :: (escapeChars cs ++ ['%']))) []
              = false := by
            simp [likeMatchFuel]
          rw [hz]
          simp [List.isPrefixOf]
        | cons d ts =>
          have hstep : likeMatchFuel (f + 1) ('\\' :: (c :: (escapeChars cs ++ ['%']))) (d :: ts)
              = ((d.toLower == c.toLower) && likeMatchFuel f (escapeChars cs ++ ['%']) ts) := by
            simp [likeMatchFuel]
          rw [hstep, ih ts f (by simp only [List.length_cons] at h; omega)]
          simp [List.isPrefixOf, charBeq_comm]
    · have hesc : escapeChars (c :: cs) = c :: escapeChars cs := by
        simp [escapeChars, hsp]
      have h1 : ¬(c = '%') := by intro hx; rw [hx] at hsp; simp [isLikeSpecial] at hsp
      have h2 : ¬(c = '\\') := by intro hx; rw [hx] at hsp; simp [isLikeSpecial] at hsp
      have h3 : ¬(c = '_') := by intro hx; rw [hx] at hsp; simp [isLikeSpecial] at hsp
      rw [hesc] at h ⊢
      rw [List.cons_append]
      cases fuel with
      | zero => omega
      | succ f =>
        cases t with
        | nil =>
          have hz : likeMatchFuel (f + 1) (c :: (escapeChars cs ++ ['%'])) [] = false := by
            simp [likeMatchFuel, h1]
          rw [hz]
          simp [List.isPrefixOf]
        | cons d ts =>
          have hstep : likeMatchFuel (f + 1) (c :: (escapeChars cs ++ ['%'])) (d :: ts)
              = ((d.toLower == c.toLower) && likeMatchFuel f (escapeChars cs ++ ['%']) ts) := by
            simp [likeMatchFuel, h1, h2, h3]
          rw [hstep, ih ts f (by simp only [List.length_cons] at h; omega)]
          simp [List.isPrefixOf, charBeq_comm]

/-- The whole route pattern `escapeForILike search ++ "%"` matches
exactly the case-insensitive prefix relation. -/
theorem ilikeMatches_escape (s t : String) :
    ilikeMatches (escapeForILike s ++ "%") t = startsWithLower s t := by
  unfold ilikeMatches startsWithLower escapeForILike likeMatchCI
  rw [String.data_append]
  refine likeMatchFuel_escape s.data t.data _ ?_
  simp only [List.length_append, List.length_cons, List.length_nil]
  omega

theorem mem_take_or_length {α : Type} {l : List α} {a : α} {n : Nat} (ha : a ∈ l) :
    a ∈ l.take n ∨ (l.take n).length = n := by
  by_cases h : l.length ≤ n
  · left
    rw [List.take_of_length_le h]
    exact ha
  · right
    rw [List.length_take]
    omega

theorem sessionStats_sessionId_mem {msgs : List Message} {wp : String → Bool}
    {st : SessionStat} (h : st ∈ sessionStats msgs wp) :
    ∃ m ∈ msgs, wp m.sessionId = true ∧ m.sessionId = st.sessionId := by
  unfold sessionStats at h
  obtain ⟨sid, hsid, rfl⟩ := List.mem_map.mp h
  rw [List.mem_dedup] at hsid
  obtain ⟨m, hm, rfl⟩ := List.mem_map.mp hsid
  rw [List.mem_filter] at hm
  exact ⟨m, hm.1, hm.2, rfl⟩

theorem mem_sessionStats_of_mem {msgs : List Message} {wp : String → Bool} {m : Message}
    (hm : m ∈ msgs) (hwp : wp m.sessionId = true) :
    ∃ st ∈ sessionStats msgs wp, st.sessionId = m.sessionId := by
  unfold sessionStats
  have hmf : m ∈ msgs.filter (fun m => wp m.sessionId) := List.mem_filter.mpr ⟨hm, hwp⟩
  have hsid : m.sessionId ∈ (msgs.filter (fun m => wp m.sessionId)).map
      (fun m => m.sessionId) := List.mem_map.mpr ⟨m, hmf, rfl⟩
  rw [← List.mem_dedup] at hsid
  exact ⟨statFor _ m.sessionId, List.mem_map.mpr ⟨m.sessionId, hsid, rfl⟩, rfl⟩

theorem listCore_items_mem {stats : List SessionStat} {limit : Nat} {cd : Option Nat}
    {csid : Option String} {it : SessionStat}
    (h : it ∈ (listCore stats limit cd csid).items) :
    it ∈ stats ∧ keepAll cd csid it = true := by
  unfold listCore at h
  simp only at h
  have h1 := List.mem_of_mem_take h
  have h2 := (List.perm_insertionSort statLe _).mem_iff.mp h1
  exact ⟨(List.mem_filter.mp h2).1, (List.mem_filter.mp h2).2⟩

theorem listCore_items_complete {stats : List SessionStat} {limit : Nat} {cd : Option Nat}
    {csid : Option String} {st : SessionStat}
    (hst : st ∈ stats) (hk : keepAll cd csid st = true) :
    st ∈ (listCore stats limit cd csid).items ∨
      (listCore stats limit cd csid).items.length = limit := by
  unfold listCore
  simp only
  exact mem_take_or_length
    ((List.perm_insertionSort statLe _).mem_iff.mpr (List.mem_filter.mpr ⟨hst, hk⟩))

/-- C6: an accepted search returns exactly the sessions whose id starts
with the search text case-insensitively (up to the page limit), with the
LIKE pattern characters `%`, `_`, `\` in the search text matched
literally: in particular the pattern built from `"ab_cd"` does not match
`"ab%cd"`. -/
theorem c6_prefix_search (jsDateParse : String → Option Nat) (msgs : List Message)
    (req : ListRequest) (s : String) (resp : ChatListPage)
    (hs : searchOf req = some s)
    (hcd : req.cursorLastMessageAt = none)
    (hok : listQuery jsDateParse msgs req = .ok resp) :
    (∀ it ∈ resp.items, startsWithLower s it.sessionId = true)
    ∧ (∀ m ∈ msgs, startsWithLower s m.sessionId = true →
        (∃ it ∈ resp.items, it.sessionId = m.sessionId) ∨
          resp.items.length = parseListLimit req.limit)
    ∧ ilikeMatches (escapeForILike "ab_cd" ++ "%") "ab%cd" = false := by
  obtain rfl := listQuery_ok hok
  have hwp : wherePredOf req = fun sid => startsWithLower s sid := by
    unfold wherePredOf
    rw [hs]
    funext sid
    exact ilikeMatches_escape s sid
  have hcd' : tryParseIsoDate jsDateParse req.cursorLastMessageAt = none := by
    rw [hcd]; rfl
  refine ⟨?_, ?_, ?_⟩
  · intro it hit
    obtain ⟨hmem, -⟩ := listCore_items_mem hit
    obtain ⟨m, -, hpred, hsid⟩ := sessionStats_sessionId_mem hmem
    rw [hwp] at hpred
    rw [← hsid]
    exact hpred
  · intro m hm hpre
    have hwpm : wherePredOf req m.sessionId = true := by rw [hwp]; exact hpre
    obtain ⟨st, hst, hsid⟩ := mem_sessionStats_of_mem hm hwpm
    have hk : keepAll (tryParseIsoDate jsDateParse req.cursorLastMessageAt)
        (csidOf req) st = true := by rw [hcd']; rfl
    rcases listCore_items_complete hst hk with h | h
    · exact Or.inl ⟨st, h, hsid⟩
    · exact Or.inr h
  · rw [ilikeMatches_escape]
    decide

theorem c6_prefix_search_witness :
    ilikeMatches (escapeForILike "ab_cd" ++ "%") "ab%cd" = false :=
  (c6_prefix_search (fun _ => none) [] ⟨none, none, none, some "abc"⟩ "abc"
    ⟨[], none⟩ rfl rfl rfl).2.2

/-! ### C1: keyset cursor returns exactly the strictly-after rows -/

theorem sidLt_irrefl (a : String) : sidLt a a = false := by
  rw [sidLt_eq_not_le, sidLe_refl]
  rfl

theorem keepAll_full_iff {d : Nat} {sid : String} {s : SessionStat} :
    keepAll (some d) (some sid) s = true ↔
      ∃ t, s.lastMessageAt = some t ∧
        (t < d ∨ (t = d ∧ sidLt s.sessionId sid = true)) := by
  unfold keepAll
  cases hs : s.lastMessageAt with
  | none => simp
  | some t => simp

/-- C1: with a fully-specified cursor `{lastMessageAt = d, sessionId =
sid}`, every returned item lies strictly after the cursor in the
canonical order (`lastMessageAt < d`, or equal timestamps and
`sessionId < sid`), every session summary satisfying that condition is
returned unless the page is already full, and the item the cursor was
derived from is never returned. -/
theorem c1_cursor_strictly_after (jsDateParse : String → Option Nat) (msgs : List Message)
    (req : ListRequest) (d : Nat) (sid : String) (resp : ChatListPage)
    (hdate : tryParseIsoDate jsDateParse req.cursorLastMessageAt = some d)
    (hsid : req.cursorSessionId = some sid) (hne : ¬(sid = ""))
    (hok : listQuery jsDateParse msgs req = .ok resp) :
    (∀ it ∈ resp.items, ∃ t, it.lastMessageAt = some t ∧
        (t < d ∨ (t = d ∧ sidLt it.sessionId sid = true)))
    ∧ (∀ st ∈ sessionStats msgs (wherePredOf req),
        (∃ t, st.lastMessageAt = some t ∧
          (t < d ∨ (t = d ∧ sidLt st.sessionId sid = true))) →
          st ∈ resp.items ∨ resp.items.length = parseListLimit req.limit)
    ∧ (∀ it ∈ resp.items, ¬(it.lastMessageAt = some d ∧ it.sessionId = sid)) := by
  obtain rfl := listQuery_ok hok
  have hcs : csidOf req = some sid := by
    unfold csidOf
    rw [hsid]
    simp [hne]
  rw [hdate, hcs]
  refine ⟨?_, ?_, ?_⟩
  · intro it hit
    exact keepAll_full_iff.mp (listCore_items_mem hit).2
  · intro st hst hcond
    exact listCore_items_complete hst (keepAll_full_iff.mpr hcond)
  · intro it hit hbad
    obtain ⟨t, hts, hcases⟩ := keepAll_full_iff.mp (listCore_items_mem hit).2
    rw [hbad.1] at hts
    obtain rfl : t = d := by
      injection hts with h
      exact h.symm
    rcases hcases with h | ⟨-, hlt⟩
    · omega
    · rw [hbad.2, sidLt_irrefl] at hlt
      exact Bool.false_ne_true hlt

theorem c1_cursor_strictly_after_witness :
    ∃ t, (⟨"A", 3, some 3⟩ : SessionStat).lastMessageAt = some t ∧
      (t < 5 ∨ (t = 5 ∧ sidLt (⟨"A", 3, some 3⟩ : SessionStat).sessionId "B" = true)) :=
  (c1_cursor_strictly_after (fun _ => some 5) exampleMsgs
    ⟨none, some "2021", some "B", none⟩ 5 "B"
    ⟨[⟨"A", 3, some 3⟩], none⟩ rfl rfl (by decide) rfl).1
    ⟨"A", 3, some 3⟩ (List.mem_singleton_self _)

/-! ### C3: category filters (spec-modelled server handling) -/

/-- C3 (spec-modelled): with `onlyWhatsapp = true` every returned session
id has exactly two underscore-delimited segments, with `onlySales = true`
every returned session has `isSales`, a false flag imposes no
constraint, and on the spec's concrete scenario (`"abc_def"` vs
`"abcdef"`) only `"abc_def"` is returned. -/
theorem c3_category_filters (settings : String → Option Bool) (msgs : List Message)
    (wp : String → Bool) (os ow : Bool) (limit : Nat) (cd : Option Nat)
    (csid : Option String) :
    (ow = true → ∀ it ∈ (listWithCategories settings msgs wp os ow limit cd csid).items,
      underscoreSegments it.sessionId = 2)
    ∧ (os = true → ∀ it ∈ (listWithCategories settings msgs wp os ow limit cd csid).items,
      isSalesSession settings it.sessionId = true)
    ∧ (os = false → ow = false →
      listWithCategories settings msgs wp os ow limit cd csid
        = listCore (sessionStats msgs wp) limit cd csid)
    ∧ ((listWithCategories (fun _ => none)
        [⟨0, "abc_def", 1, "x"⟩, ⟨1, "abcdef", 2, "y"⟩]
        (fun _ => true) false true 50 none none).items.map (fun s => s.sessionId)
        = ["abc_def"]) := by
  refine ⟨?_, ?_, ?_, by decide⟩
  · rintro rfl it hit
    unfold listWithCategories at hit
    have hmem := (listCore_items_mem hit).1
    have hcat := (List.mem_filter.mp hmem).2
    unfold categoryPred isWhatsappSession at hcat
    simp only [Bool.and_eq_true, Bool.or_eq_true] at hcat
    rcases hcat.2 with h | h
    · simp at h
    · exact of_decide_eq_true h
  · rintro rfl it hit
    unfold listWithCategories at hit
    have hmem := (listCore_items_mem hit).1
    have hcat := (List.mem_filter.mp hmem).2
    unfold categoryPred at hcat
    simp only [Bool.and_eq_true, Bool.or_eq_true] at hcat
    rcases hcat.1 with h | h
    · simp at h
    · exact h
  · rintro rfl rfl
    unfold listWithCategories
    congr 1
    exact List.filter_eq_self.mpr (fun a _ => rfl)

theorem c3_category_filters_witness :
    ∀ it ∈ (listWithCategories (fun _ => none)
        [⟨0, "abc_def", 1, "x"⟩, ⟨1, "abcdef", 2, "y"⟩]
        (fun _ => true) false true 50 none none).items,
      underscoreSegments it.sessionId = 2 :=
  (c3_category_filters (fun _ => none) [⟨0, "abc_def", 1, "x"⟩, ⟨1, "abcdef", 2, "y"⟩]
    (fun _ => true) false true 50 none none).1 rfl

/-! ### C7: the last-message tie-break is not deterministic -/

/-- C7 fails on the code: the summary queries order the per-session
messages only by `created_at DESC` (`ARRAY_AGG(... ORDER BY created_at
DESC)` and `ROW_NUMBER() OVER (... ORDER BY created_at DESC)`), with no
secondary key.  Two sequences that are both valid results of that
`ORDER BY` for the same group of messages (two messages sharing the
maximal `created_at`) yield different `last_message_content` values, so
the DBMS is free to return either: the selection is not determined by
the query, contradicting the claimed deterministic, stable tie-break. -/
theorem c7_tie_break_nondeterministic :
    ∃ (g s₁ s₂ : List Message), ValidAggOrder g s₁ ∧ ValidAggOrder g s₂ ∧
      aggPreviewContent s₁ ≠ aggPreviewContent s₂ := by
  refine ⟨[⟨0, "A", 5, "a"⟩, ⟨1, "A", 5, "b"⟩],
    [⟨0, "A", 5, "a"⟩, ⟨1, "A", 5, "b"⟩],
    [⟨1, "A", 5, "b"⟩, ⟨0, "A", 5, "a"⟩], ?_, ?_, ?_⟩ <;> decide

/-! ### C2: cursor round trips cover the filtered set exactly once -/

theorem sessionStats_nodup (msgs : List Message) (wp : String → Bool) :
    ((sessionStats msgs wp).map (fun s => s.sessionId)).Nodup := by
  unfold sessionStats
  rw [List.map_map]
  have hcomp : ((fun s : SessionStat => s.sessionId) ∘
      statFor (msgs.filter fun m => wp m.sessionId)) = id := funext fun _ => rfl
  rw [hcomp, List.map_id]
  exact List.nodup_dedup _

theorem sessionStats_lastMessageAt_isSome (msgs : List Message) (wp : String → Bool) :
    ∀ st ∈ sessionStats msgs wp, st.lastMessageAt.isSome := by
  intro st hst
  unfold sessionStats at hst
  obtain ⟨sid, hsid, rfl⟩ := List.mem_map.mp hst
  rw [List.mem_dedup] at hsid
  obtain ⟨m, hm, rfl⟩ := List.mem_map.mp hsid
  unfold statFor
  simp only
  have hmem : m ∈ (msgs.filter fun m => wp m.sessionId).filter
      (fun m' => m'.sessionId = m.sessionId) := List.mem_filter.mpr ⟨hm, by simp⟩
  cases hmax : (((msgs.filter fun m => wp m.sessionId).filter
      (fun m' => m'.sessionId = m.sessionId)).map (fun m => m.createdAt)).max? with
  | none =>
    rw [List.max?_eq_none_iff, List.map_eq_nil_iff] at hmax
    rw [hmax] at hmem
    exact absurd hmem (List.not_mem_nil m)
  | some v => rfl

theorem sidLe_empty_left (a : String) : sidLe "" a = true := rfl

theorem pairwise_le_getLast : ∀ {l : List SessionStat} {b : SessionStat},
    l.Pairwise statLe → l.getLast? = some b → ∀ a ∈ l, statLeB a b = true
  | [], _, _, hb => by simp at hb
  | [x], b, _, hb => by
    rw [List.getLast?_singleton, Option.some.injEq] at hb
    subst hb
    intro a ha
    rw [List.mem_singleton] at ha
    subst ha
    exact statLeB_refl a
  | x :: y :: rest, b, hs, hb => by
    rw [List.getLast?_cons_cons] at hb
    have hx := (List.pairwise_cons.mp hs).1
    have htail := (List.pairwise_cons.mp hs).2
    intro a ha
    rcases List.mem_cons.mp ha with rfl | ha'
    · exact hx b (List.mem_of_mem_getLast? (Option.mem_def.mpr hb))
    · exact pairwise_le_getLast htail hb a ha'

/-- For rows with a non-null timestamp, the cursor clause built from the
last emitted item (after the api client's empty-string truthiness check)
keeps exactly the rows that are not before-or-equal that item. -/
theorem keep_eq_not_statLeB {s lastj : SessionStat} {d : Nat}
    (hd : lastj.lastMessageAt = some d) (hsome : s.lastMessageAt.isSome) :
    keepAll (some d) (if lastj.sessionId = "" then none else some lastj.sessionId) s
      = !statLeB s lastj := by
  obtain ⟨t, ht⟩ := Option.isSome_iff_exists.mp hsome
  obtain ⟨ssid, scnt, slma⟩ := s
  obtain ⟨lsid, lcnt, llma⟩ := lastj
  simp only at ht hd
  subst ht
  subst hd
  unfold keepAll statLeB
  simp only
  by_cases hz : lsid = ""
  · rw [if_pos hz, hz, sidLe_empty_left]
    rcases Nat.lt_trichotomy t d with h | h | h
    · simp [h, Nat.lt_asymm h, Nat.ne_of_lt h]
    · subst h
      simp
    · simp [h, Nat.lt_asymm h, (Nat.ne_of_lt h).symm]
  · rw [if_neg hz]
    rcases Nat.lt_trichotomy t d with h | h | h
    · simp [h, Nat.lt_asymm h, Nat.ne_of_lt h]
    · subst h
      simp [sidLt_eq_not_le]
    · simp [h, Nat.lt_asymm h, (Nat.ne_of_lt h).symm]

/-- Two sorted lists that are permutations of each other and have
pairwise-distinct session ids are equal: the canonical order is a total
order on the keys `(lastMessageAt, sessionId)`, and distinct session ids
make ties impossible. -/
theorem eq_of_perm_sorted_nodup : ∀ {l₁ l₂ : List SessionStat},
    l₁.Perm l₂ → l₁.Pairwise statLe → l₂.Pairwise statLe →
    (l₁.map (fun s => s.sessionId)).Nodup → l₁ = l₂
  | [], l₂, hp, _, _, _ => hp.nil_eq
  | x :: t₁, [], hp, _, _, _ => by
    have := hp.length_eq
    simp at this
  | x :: t₁, y :: t₂, hp, hs₁, hs₂, hnd => by
    have hy₁ : y ∈ x :: t₁ := hp.mem_iff.mpr (List.mem_cons_self y t₂)
    have hx₂ : x ∈ y :: t₂ := hp.mem_iff.mp (List.mem_cons_self x t₁)
    have hxy : statLeB x y = true := by
      rcases List.mem_cons.mp hy₁ with h | hy'
      · rw [h]
        exact statLeB_refl x
      · exact (List.pairwise_cons.mp hs₁).1 y hy'
    have hyx : statLeB y x = true := by
      rcases List.mem_cons.mp hx₂ with h | hx'
      · rw [h]
        exact statLeB_refl y
      · exact (List.pairwise_cons.mp hs₂).1 x hx'
    have hsid : x.sessionId = y.sessionId := statLeB_antisymm_sid hxy hyx
    have hxy' : x = y :=
      List.inj_on_of_nodup_map hnd (List.mem_cons_self x t₁) hy₁ hsid
    subst hxy'
    have htails : t₁.Perm t₂ := hp.cons_inv
    have h₁ := (List.pairwise_cons.mp hs₁).2
    have h₂ := (List.pairwise_cons.mp hs₂).2
    have hnd' : (t₁.map (fun s => s.sessionId)).Nodup := by
      rw [List.map_cons] at hnd
      exact (List.nodup_cons.mp hnd).2
    rw [eq_of_perm_sorted_nodup htails h₁ h₂ hnd']

/-- On a canonically sorted list of non-null-timestamp rows with distinct
session ids, the cursor clause built from the last item of the first `j`
rows keeps exactly the rows after position `j`. -/
theorem filter_keep_eq_drop {L : List SessionStat} {j : Nat} {lastj : SessionStat} {d : Nat}
    (hL : L.Pairwise statLe)
    (hnd : (L.map (fun s => s.sessionId)).Nodup)
    (hsome : ∀ s ∈ L, s.lastMessageAt.isSome)
    (hlast : (L.take j).getLast? = some lastj)
    (hd : lastj.lastMessageAt = some d) :
    L.filter (keepAll (some d)
      (if lastj.sessionId = "" then none else some lastj.sessionId)) = L.drop j := by
  have hL' := hL
  rw [← List.take_append_drop j L] at hL'
  obtain ⟨htake, hdrop, hcross⟩ := List.pairwise_append.mp hL'
  have hnd' := hnd
  rw [← List.take_append_drop j L, List.map_append] at hnd'
  obtain ⟨-, -, hdisj⟩ := List.nodup_append.mp hnd'
  have hlastmem : lastj ∈ L.take j := List.mem_of_mem_getLast? (Option.mem_def.mpr hlast)
  have h1 : (L.take j).filter (keepAll (some d)
      (if lastj.sessionId = "" then none else some lastj.sessionId)) = [] := by
    rw [List.filter_eq_nil_iff]
    intro a ha
    rw [keep_eq_not_statLeB hd (hsome a (List.mem_of_mem_take ha)),
      pairwise_le_getLast htake hlast a ha]
    simp
  have h2 : (L.drop j).filter (keepAll (some d)
      (if lastj.sessionId = "" then none else some lastj.sessionId)) = L.drop j := by
    rw [List.filter_eq_self]
    intro a ha
    rw [keep_eq_not_statLeB hd (hsome a (List.mem_of_mem_drop ha))]
    cases hb : statLeB a lastj with
    | false => rfl
    | true =>
      have hsid : a.sessionId = lastj.sessionId :=
        statLeB_antisymm_sid hb (hcross lastj hlastmem a ha)
      have hmem1 : lastj.sessionId ∈ (L.take j).map (fun s => s.sessionId) :=
        List.mem_map.mpr ⟨lastj, hlastmem, rfl⟩
      have hmem2 : lastj.sessionId ∈ (L.drop j).map (fun s => s.sessionId) :=
        List.mem_map.mpr ⟨a, ha, hsid⟩
      exact absurd hmem2 (hdisj hmem1)
  conv_lhs => rw [← List.take_append_drop j L]
  rw [List.filter_append, h1, h2, List.nil_append]

theorem paginateAux_succ (fuel : Nat) (stats : List SessionStat) (limit : Nat)
    (cd : Option Nat) (csid : Option String) :
    paginateAux (fuel + 1) stats limit cd csid
      = (listCore stats limit cd csid).items ++
        (match (listCore stats limit cd csid).nextCursor with
          | none => []
          | some c =>
            paginateAux fuel stats limit (some c.lastMessageAt)
              (if c.sessionId = "" then none else some c.sessionId)) := rfl

theorem listCore_items_eq (stats : List SessionStat) (limit : Nat) (cd : Option Nat)
    (csid : Option String) :
    (listCore stats limit cd csid).items
      = (List.insertionSort statLe (stats.filter (keepAll cd csid))).take limit := rfl

theorem listCore_nextCursor_eq (stats : List SessionStat) (limit : Nat) (cd : Option Nat)
    (csid : Option String) :
    (listCore stats limit cd csid).nextCursor
      = (if ((List.insertionSort statLe (stats.filter (keepAll cd csid))).take limit).length
            = limit then
          match ((List.insertionSort statLe (stats.filter (keepAll cd csid))).take
              limit).getLast? with
          | some lastItem =>
            match lastItem.lastMessageAt with
            | some d => some ⟨d, lastItem.sessionId⟩
            | none => none
          | none => none
        else none) := rfl

/-- Fuel induction for the pagination loop: whenever the current cursor
clause selects exactly the rows after position `m` of the globally sorted
listing, the remaining round trips emit exactly those rows, in order. -/
theorem paginateAux_eq_drop (stats : List SessionStat) (limit : Nat)
    (hnd : (stats.map (fun s => s.sessionId)).Nodup)
    (hsome : ∀ s ∈ stats, s.lastMessageAt.isSome)
    (hlim : 1 ≤ limit) :
    ∀ (fuel m : Nat) (cd : Option Nat) (csid : Option String),
      List.insertionSort statLe (stats.filter (keepAll cd csid))
        = (List.insertionSort statLe stats).drop m →
      (List.insertionSort statLe stats).length - m < fuel →
      paginateAux fuel stats limit cd csid = (List.insertionSort statLe stats).drop m := by
  have hLperm : (List.insertionSort statLe stats).Perm stats := List.perm_insertionSort _ _
  have hLsorted : (List.insertionSort statLe stats).Pairwise statLe :=
    List.sorted_insertionSort statLe stats
  have hLnd : ((List.insertionSort statLe stats).map (fun s => s.sessionId)).Nodup :=
    ((hLperm.map _).symm).nodup hnd
  have hLsome : ∀ s ∈ List.insertionSort statLe stats, s.lastMessageAt.isSome :=
    fun s hs => hsome s (hLperm.mem_iff.mp hs)
  intro fuel
  induction fuel with
  | zero =>
    intro m cd csid hfilter hlt
    omega
  | succ fuel ih =>
    intro m cd csid hfilter hlt
    have hitems : (listCore stats limit cd csid).items
        = ((List.insertionSort statLe stats).drop m).take limit := by
      rw [listCore_items_eq, hfilter]
    by_cases hfull : (((List.insertionSort statLe stats).drop m).take limit).length = limit
    · have hne : ((List.insertionSort statLe stats).drop m).take limit ≠ [] := by
        intro h
        rw [h] at hfull
        simp at hfull
        omega
      cases hlast : (((List.insertionSort statLe stats).drop m).take limit).getLast? with
      | none => exact absurd (List.getLast?_eq_none_iff.mp hlast) hne
      | some lastj =>
        have hlastmemL : lastj ∈ List.insertionSort statLe stats :=
          List.mem_of_mem_drop (List.mem_of_mem_take
            (List.mem_of_mem_getLast? (Option.mem_def.mpr hlast)))
        obtain ⟨d, hd⟩ := Option.isSome_iff_exists.mp (hLsome lastj hlastmemL)
        have hnc : (listCore stats limit cd csid).nextCursor
            = some ⟨d, lastj.sessionId⟩ := by
          rw [listCore_nextCursor_eq, hfilter, if_pos hfull, hlast]
          simp [hd]
        have hlast' : ((List.insertionSort statLe stats).take (m + limit)).getLast?
            = some lastj := by
          rw [List.take_add, List.getLast?_append_of_ne_nil _ hne]
          exact hlast
        have hdropfilter : (List.insertionSort statLe stats).filter
            (keepAll (some d) (if lastj.sessionId = "" then none else some lastj.sessionId))
            = (List.insertionSort statLe stats).drop (m + limit) :=
          filter_keep_eq_drop hLsorted hLnd hLsome hlast' hd
        have hstatsfilter : List.insertionSort statLe (stats.filter
            (keepAll (some d) (if lastj.sessionId = "" then none else some lastj.sessionId)))
            = (List.insertionSort statLe stats).drop (m + limit) := by
          apply eq_of_perm_sorted_nodup
          · refine (List.perm_insertionSort _ _).trans ?_
            rw [← hdropfilter]
            exact (hLperm.symm).filter _
          · exact List.sorted_insertionSort _ _
          · exact hLsorted.sublist (List.drop_sublist _ _)
          · have hfil : ((stats.filter (keepAll (some d)
                (if lastj.sessionId = "" then none else some lastj.sessionId))).map
                (fun s => s.sessionId)).Nodup :=
              (((List.filter_sublist stats).map _)).nodup hnd
            exact (((List.perm_insertionSort statLe _).map _).symm).nodup hfil
        have hlen2 : limit ≤ (List.insertionSort statLe stats).length - m := by
          rw [List.length_take, List.length_drop] at hfull
          omega
        rw [paginateAux_succ, hitems, hnc]
        show ((List.insertionSort statLe stats).drop m).take limit ++
            paginateAux fuel stats limit (some d)
              (if lastj.sessionId = "" then none else some lastj.sessionId)
            = (List.insertionSort statLe stats).drop m
        rw [ih (m + limit) (some d)
          (if lastj.sessionId = "" then none else some lastj.sessionId)
          hstatsfilter (by omega)]
        rw [← List.drop_drop]
        exact List.take_append_drop limit _
    · have hnc : (listCore stats limit cd csid).nextCursor = none := by
        rw [listCore_nextCursor_eq, hfilter, if_neg hfull]
      have hlen : ((List.insertionSort statLe stats).drop m).length ≤ limit := by
        rw [List.length_take] at hfull
        omega
      rw [paginateAux_succ, hitems, hnc]
      show ((List.insertionSort statLe stats).drop m).take limit ++ ([] : List SessionStat)
          = (List.insertionSort statLe stats).drop m
      rw [List.append_nil, List.take_of_length_le hlen]

/-- C2: starting from a null cursor and feeding each `nextCursor` back in
until it is absent, the concatenated pages are exactly the canonically
sorted filtered session set: every filtered session appears exactly once
(no repeated `sessionId`), nothing else appears, and the concatenation is
in canonical order.  (`sessionStats` always has non-null `lastMessageAt`
and distinct session ids, so the claim's side conditions hold for every
store.) -/
theorem c2_pagination_exhaustive (msgs : List Message) (wp : String → Bool) (limit : Nat)
    (hlim : 1 ≤ limit) :
    paginateAll msgs wp limit = List.insertionSort statLe (sessionStats msgs wp)
    ∧ ((paginateAll msgs wp limit).map (fun s => s.sessionId)).Nodup
    ∧ (∀ st, st ∈ paginateAll msgs wp limit ↔ st ∈ sessionStats msgs wp)
    ∧ (paginateAll msgs wp limit).Pairwise canonLe := by
  have hnd := sessionStats_nodup msgs wp
  have hsome := sessionStats_lastMessageAt_isSome msgs wp
  have hperm : (List.insertionSort statLe (sessionStats msgs wp)).Perm
      (sessionStats msgs wp) := List.perm_insertionSort _ _
  have hmain : paginateAll msgs wp limit
      = List.insertionSort statLe (sessionStats msgs wp) := by
    unfold paginateAll
    have hfilter0 : List.insertionSort statLe
        ((sessionStats msgs wp).filter (keepAll none none))
        = (List.insertionSort statLe (sessionStats msgs wp)).drop 0 := by
      have hall : ∀ a ∈ sessionStats msgs wp, keepAll none none a = true := fun a _ => rfl
      rw [List.filter_eq_self.mpr hall, List.drop_zero]
    have hbound : (List.insertionSort statLe (sessionStats msgs wp)).length - 0
        < (sessionStats msgs wp).length + 1 := by
      rw [hperm.length_eq]
      omega
    rw [paginateAux_eq_drop (sessionStats msgs wp) limit hnd hsome hlim
      ((sessionStats msgs wp).length + 1) 0 none none hfilter0 hbound, List.drop_zero]
  refine ⟨hmain, ?_, ?_, ?_⟩
  · rw [hmain]
    exact ((hperm.map _).symm).nodup hnd
  · intro st
    rw [hmain]
    exact hperm.mem_iff
  · rw [hmain]
    exact (List.sorted_insertionSort statLe _).imp (fun h => (statLe_iff_canonLe _ _).mp h)

theorem c2_pagination_exhaustive_witness :
    paginateAll exampleMsgs (fun _ => true) 2
      = List.insertionSort statLe (sessionStats exampleMsgs (fun _ => true))
    ∧ ((paginateAll exampleMsgs (fun _ => true) 2).map (fun s => s.sessionId)).Nodup
    ∧ (∀ st, st ∈ paginateAll exampleMsgs (fun _ => true) 2 ↔
        st ∈ sessionStats exampleMsgs (fun _ => true))
    ∧ (paginateAll exampleMsgs (fun _ => true) 2).Pairwise canonLe :=
  c2_pagination_exhaustive exampleMsgs (fun _ => true) 2 (by decide)
